import Mathlib

/-!
# Verification of `daceml/autodiff/implementations/onnx_ops.py`

A shallow embedding of the backward-strategy module of daceml's autodiff
pass, together with proofs of the specification claims about it.

Conventions:
* Einsum equations are modelled at the level the code manipulates them:
  a parsed equation (`EinsumParser`) is a list of input index patterns and
  one output index pattern, each a `String` of index labels.
* Tensors appearing in the closed-form backward formulas are modelled as
  functions over an abstract index type `ι` (the non-reduced axes) and a
  `Fin k` coordinate for the reduction axis, with exact rational entries.
* Graph-building code is modelled by explicit traces/states recording the
  access nodes, compute nodes and name allocations the Python code performs.
-/

namespace OnnxOps

/-- The parsed form of an einsum equation, as produced by
`dace.frontend.common.einsum.EinsumParser` applied to
`forward_node.equation`: the list of input operand index patterns and the
output index pattern (e.g. `"ij,jk->ik"` parses to
`⟨["ij", "jk"], "ik"⟩`). -/
structure EinsumParser where
  inputs : List String
  output : String
deriving Repr, DecidableEq

/-- The variadic connector name `Inputs__i` of the i-th einsum operand. -/
def inputConnector (i : ℕ) : String := "Inputs__" ++ toString i

/-- Embedding of `reverse_einsum_wrt_input` (onnx_ops.py, lines 20-46),
with the equation already parsed and the connector name already parsed to
the operand index `input_idx` (the Python code obtains `input_idx` via
`donnx.parse_variadic_param(input_name)` and the parsed equation via
`einsum.EinsumParser(forward_node.equation)`).

Mirrors:
```
backward_input_expressions = [parser.output] + parser.inputs[:input_idx] + parser.inputs[input_idx + 1:]
backward_input_arrays = [f"Inputs__{i}" for i in itertools.chain(range(input_idx), range(input_idx + 1, len(parser.inputs)))]
einsum_str = f"{','.join(backward_input_expressions)}->{parser.inputs[input_idx]}"
return backward_input_arrays, einsum_str
```
Callers guarantee `input_idx < parser.inputs.length` (in Python an
out-of-range index would raise `IndexError` at `parser.inputs[input_idx]`;
here `getD` supplies a default that is never used under that guarantee). -/
def reverse_einsum_wrt_input (parser : EinsumParser) (input_idx : ℕ) :
    List String × String :=
  let backward_input_expressions :=
    [parser.output] ++ parser.inputs.take input_idx
      ++ parser.inputs.drop (input_idx + 1)
  let backward_input_arrays :=
    (List.range input_idx ++
      List.range' (input_idx + 1) (parser.inputs.length - (input_idx + 1))).map
      inputConnector
  (backward_input_arrays,
    String.intercalate "," backward_input_expressions ++ "->"
      ++ parser.inputs.getD input_idx "")

/-- The index list `range j ++ [j+1, ..., k)` built by
`itertools.chain(range(input_idx), range(input_idx + 1, len(parser.inputs)))`
is exactly the indices of all operands except `j`, in original order. -/
lemma chain_ranges_eq_filter (j k : ℕ) (h : j < k) :
    List.range j ++ List.range' (j + 1) (k - (j + 1)) =
      (List.range k).filter (fun i => i ≠ j) := by
  induction k with
  | zero => omega
  | succ k ih =>
    have hfj : (List.range j).filter (fun i => i ≠ j) = List.range j := by
      apply List.filter_eq_self.mpr
      intro a ha
      have := List.mem_range.mp ha
      simp only [decide_eq_true_eq]
      omega
    rcases Nat.lt_succ_iff_lt_or_eq.mp h with h' | h'
    · rw [List.range_succ, List.filter_append, ← ih h']
      have hk : k - (j + 1) + 1 = k + 1 - (j + 1) := by omega
      have hfk : (List.filter (fun i => decide (i ≠ j)) [k]) = [k] := by
        have : k ≠ j := by omega
        simp [this]
      rw [hfk, ← hk, List.append_assoc, List.range'_concat]
      have hlast : j + 1 + 1 * (k - (j + 1)) = k := by omega
      rw [hlast]
    · subst h'
      rw [List.range_succ, List.filter_append, hfj]
      simp

/-- **C1.** For every valid parsed contraction expression and every target
operand index `j < k`, `reverse_einsum_wrt_input` returns (a) the forward
operand connectors `Inputs__i` for all operand indices `i ≠ j`, in original
order, and (b) the contraction string
`output,input_1,...,input_{j-1},input_{j+1},...,input_k->input_j` (the
first operand being implicitly the gradient of the output). -/
theorem reverse_einsum_wrt_input_spec (parser : EinsumParser) (j : ℕ)
    (h : j < parser.inputs.length) :
    reverse_einsum_wrt_input parser j =
      (((List.range parser.inputs.length).filter (fun i => i ≠ j)).map
          inputConnector,
        String.intercalate ","
            (parser.output :: parser.inputs.eraseIdx j) ++ "->"
          ++ parser.inputs.get ⟨j, h⟩) := by
  unfold reverse_einsum_wrt_input
  rw [chain_ranges_eq_filter j parser.inputs.length h]
  rw [List.eraseIdx_eq_take_drop_succ]
  rw [List.getD_eq_getElem parser.inputs "" h]
  rfl

/-- Witness for C1 on the concrete equation `ij,jk->ik`, target operand 1:
the reversal returns connector list `[Inputs__0]` and equation
`ik,ij->jk`. -/
theorem reverse_einsum_wrt_input_spec_witness :
    1 < ([("ij" : String), "jk"] : List String).length ∧
      reverse_einsum_wrt_input ⟨["ij", "jk"], "ik"⟩ 1 =
        (["Inputs__0"], "ik,ij->jk") := by
  refine ⟨by decide, ?_⟩
  rw [reverse_einsum_wrt_input_spec ⟨["ij", "jk"], "ik"⟩ 1 (by decide)]
  rfl

/-! ## Softmax-family backward formulas (C2, C3)

The two strategies lower a small elementwise/reduction program
(`softmax_backward` / `logsoftmax_backward` closures in the source) through
`butils.backward_program_for_node`.  Tensors are modelled as functions
`ι → Fin k → ℚ` where `ι` is the product of all non-reduced axes and
`Fin k` is the reduction axis `dim = forward_node.axis`; the intermediate
`sums`-shaped tensors (the reduced axis kept with size 1) are modelled as
`ι → ℚ`.  `ONNXReduceSum(keepdims=1, axes=[dim])` sums over the `Fin k`
coordinate; multiplying a full-shaped tensor by a `sums`-shaped tensor
broadcasts the latter along the reduced axis, exactly as `ONNXMul` does in
the source program. -/

/-- Elementwise product of two full-shape tensors: `donnx.ONNXMul(A, B, C)`. -/
def ONNXMul {ι : Type} {k : ℕ} (A B : ι → Fin k → ℚ) : ι → Fin k → ℚ :=
  fun o i => A o i * B o i

/-- `donnx.ONNXReduceSum(data, reduced, keepdims=1, axes=[dim])`: sum over
the reduction axis, keeping it as a size-1 axis (hence the result no longer
depends on the `Fin k` coordinate). -/
def ONNXReduceSum {ι : Type} {k : ℕ} (data : ι → Fin k → ℚ) : ι → ℚ :=
  fun o => ∑ i, data o i

/-- `donnx.ONNXMul(A, B, C)` where `B` has the reduced (size-1 on the axis)
shape: the reduced operand is broadcast along the reduction axis. -/
def ONNXMulBroadcast {ι : Type} {k : ℕ} (A : ι → Fin k → ℚ) (B : ι → ℚ) :
    ι → Fin k → ℚ :=
  fun o i => A o i * B o

/-- `donnx.ONNXSub(A, B, C)` on full-shape tensors. -/
def ONNXSub {ι : Type} {k : ℕ} (A B : ι → Fin k → ℚ) : ι → Fin k → ℚ :=
  fun o i => A o i - B o i

/-- `donnx.ONNXExp(input, output)`, elementwise application of the
external exponential kernel `expf` (the kernel itself is an external
operator, out of scope; it is passed in as a parameter). -/
def ONNXExp {ι : Type} {k : ℕ} (expf : ℚ → ℚ) (input : ι → Fin k → ℚ) :
    ι → Fin k → ℚ :=
  fun o i => expf (input o i)

/-- Embedding of the `softmax_backward` program (onnx_ops.py, lines
155-166), value level:
```
prod = ONNXMul(A=output, B=output_grad)
sums = ONNXReduceSum(data=prod, keepdims=1, axes=[dim])
input_grad = ONNXMul(A=output, B=sums)
input_grad[:] = prod - input_grad
```
-/
def softmax_backward {ι : Type} {k : ℕ} (output output_grad : ι → Fin k → ℚ) :
    ι → Fin k → ℚ :=
  let prod := ONNXMul output output_grad
  let sums := ONNXReduceSum prod
  let input_grad := ONNXMulBroadcast output sums
  fun o i => prod o i - input_grad o i

/-- Embedding of the `logsoftmax_backward` program (onnx_ops.py, lines
195-206), value level:
```
exp_output = ONNXExp(input=output)
grad_output_sum = ONNXReduceSum(data=output_grad, keepdims=1, axes=[dim])
exp_output[:] = exp_output * grad_output_sum
input_grad = ONNXSub(A=output_grad, B=exp_output)
```
-/
def logsoftmax_backward {ι : Type} {k : ℕ} (expf : ℚ → ℚ)
    (output output_grad : ι → Fin k → ℚ) : ι → Fin k → ℚ :=
  let exp_output := ONNXExp expf output
  let grad_output_sum := ONNXReduceSum output_grad
  let exp_output2 := ONNXMulBroadcast exp_output grad_output_sum
  ONNXSub output_grad exp_output2

/-- Syntax of the statements appearing in the miniature backward programs
of the softmax-family and pooling strategies (the bodies of the Python
closures handed to `butils.backward_program_for_node`). -/
inductive ProgStep
  /-- `dace.define_local(shape, dtype)` bound to a local tensor name. -/
  | defineLocal (name : String)
  /-- `donnx.ONNXMul(A=a, B=b, C=c)` operator node. -/
  | onnxMul (a b c : String)
  /-- `donnx.ONNXReduceSum(data=d, reduced=r, keepdims=kd, axes=axs)`. -/
  | onnxReduceSum (data reduced : String) (keepdims : ℕ) (axes : List ℤ)
  /-- `donnx.ONNXExp(input=i, output=o)` operator node. -/
  | onnxExp (i o : String)
  /-- `donnx.ONNXSub(A=a, B=b, C=c)` operator node. -/
  | onnxSub (a b c : String)
  /-- Direct assignment `dst[:] = a - b` (no reusable operator node). -/
  | assignDiff (dst a b : String)
  /-- Direct assignment `dst[:] = a * b` (no reusable operator node). -/
  | assignProd (dst a b : String)
deriving Repr, DecidableEq

/-- The statement list of the `softmax_backward` closure (onnx_ops.py,
lines 155-166), in source order. -/
def softmax_backward_prog (dim : ℤ) : List ProgStep :=
  [ProgStep.defineLocal "prod",
   ProgStep.defineLocal "sums",
   ProgStep.onnxMul "output" "output_grad" "prod",
   ProgStep.onnxReduceSum "prod" "sums" 1 [dim],
   ProgStep.onnxMul "output" "sums" "input_grad",
   ProgStep.assignDiff "input_grad" "prod" "input_grad"]

/-- The statement list of the `logsoftmax_backward` closure (onnx_ops.py,
lines 195-206), in source order. -/
def logsoftmax_backward_prog (dim : ℤ) : List ProgStep :=
  [ProgStep.defineLocal "exp_output",
   ProgStep.onnxExp "output" "exp_output",
   ProgStep.defineLocal "grad_output_sum",
   ProgStep.onnxReduceSum "output_grad" "grad_output_sum" 1 [dim],
   ProgStep.assignProd "exp_output" "exp_output" "grad_output_sum",
   ProgStep.onnxSub "output_grad" "exp_output" "input_grad"]

/-- The forward-output connectors each strategy wires into its produced
backward node via `butils.connect_output_from_forward(forward_node,
result_node, context, conn)`, in call order.  `DefaultSoftmaxBackward`
makes one such call with `"output"` (line 171). -/
def softmaxConnectedForwardOutputs : List String := ["output"]

/-- `DefaultLogSoftmaxBackward` makes one `connect_output_from_forward`
call with `"output"` (line 211). -/
def logSoftmaxConnectedForwardOutputs : List String := ["output"]

/-- `PureGlobalAveragePoolingBackward.backward` (lines 791-808) makes no
`connect_output_from_forward` call. -/
def gapConnectedForwardOutputs : List String := []

/-- **C2.** The synthesized Softmax backward computes
`input_grad = (o ⊙ dY) − o ⊙ reduce_sum(o ⊙ dY, axis, keepdims)`, which
equals `o ⊙ (dY − sum(o ⊙ dY, axis, keepdim))` elementwise; the final
correction is a direct assignment (the last program statement), no
`ONNXSub` operator node appears in the program; and the forward node's own
output is connected into the subgraph as an auxiliary input. -/
theorem softmax_backward_spec {ι : Type} {k : ℕ}
    (output output_grad : ι → Fin k → ℚ) (dim : ℤ) :
    softmax_backward output output_grad =
        (fun o i => output o i *
          (output_grad o i - ∑ j, output o j * output_grad o j)) ∧
      (softmax_backward output output_grad =
        fun o i => ONNXMul output output_grad o i -
          ONNXMulBroadcast output
            (ONNXReduceSum (ONNXMul output output_grad)) o i) ∧
      (softmax_backward_prog dim).getLast? =
        some (ProgStep.assignDiff "input_grad" "prod" "input_grad") ∧
      (∀ a b c, ProgStep.onnxSub a b c ∉ softmax_backward_prog dim) ∧
      "output" ∈ softmaxConnectedForwardOutputs := by
  refine ⟨?_, rfl, rfl, ?_, by simp [softmaxConnectedForwardOutputs]⟩
  · funext o i
    simp only [softmax_backward, ONNXMul, ONNXReduceSum, ONNXMulBroadcast]
    rw [Finset.mul_sum]
    ring_nf
    rw [Finset.mul_sum]
    ring_nf
  · intro a b c hmem
    simp [softmax_backward_prog] at hmem

/-- **C3.** The synthesized LogSoftmax backward computes
`input_grad = dY − exp(o) ⊙ reduce_sum(dY, axis, keepdims)` (for the
external exponential kernel `expf`), and the forward node's own output is
connected into the subgraph as an auxiliary input. -/
theorem logsoftmax_backward_spec {ι : Type} {k : ℕ} (expf : ℚ → ℚ)
    (output output_grad : ι → Fin k → ℚ) :
    logsoftmax_backward expf output output_grad =
        (fun o i => output_grad o i -
          expf (output o i) * ∑ j, output_grad o j) ∧
      "output" ∈ logSoftmaxConnectedForwardOutputs := by
  exact ⟨rfl, by simp [logSoftmaxConnectedForwardOutputs]⟩

/-! ## Einsum applicability (C4) -/

/-- Modelled from the spec: `pure_implementations.PureEinsum.forward_can_be_applied`
(module `daceml.onnx.op_implementations.pure_implementations`, not part of
the source tree under verification) — per §4.1 it checks that "the
contraction expression is one the pure engine can itself differentiate",
and per §4.2/§7 an expression in which an operand's index pattern contains
a repeated label "must be rejected by the applicability check"
(`UnsupportedExpressionShape`, "never reached inside synthesize").
Modelled as: every input operand's index pattern is duplicate-free. -/
def pureEinsum_forward_can_be_applied (parser : EinsumParser) : Bool :=
  parser.inputs.all (fun s => s.toList.Nodup)

/-- Embedding of `DefaultEinsumBackward.backward_can_be_applied`
(onnx_ops.py, lines 53-57): it returns
`PureEinsum.forward_can_be_applied(node, state, sdfg)`. -/
def einsum_backward_can_be_applied (parser : EinsumParser) : Bool :=
  pureEinsum_forward_can_be_applied parser

/-- The output side of the reversed einsum string produced by
`reverse_einsum_wrt_input` (everything after `"->"`), i.e.
`parser.inputs[input_idx]`. -/
def reversedOutputSide (parser : EinsumParser) (input_idx : ℕ) : String :=
  parser.inputs.getD input_idx ""

/-- **C4.** If the target operand's index pattern contains a repeated
label, the einsum backward strategy's applicability check returns `false`;
conversely, whenever the check returns `true`, the output side of the
reversed expression produced by `reverse_einsum_wrt_input` (which is the
target operand's pattern) has no repeated label, so the illegal reversed
expression is never produced inside synthesis. -/
theorem einsum_backward_can_be_applied_spec (parser : EinsumParser) (j : ℕ)
    (h : j < parser.inputs.length) :
    (¬ (parser.inputs.get ⟨j, h⟩).toList.Nodup →
        einsum_backward_can_be_applied parser = false) ∧
      (einsum_backward_can_be_applied parser = true →
        (reversedOutputSide parser j).toList.Nodup) := by
  constructor
  · intro hdup
    rw [Bool.eq_false_iff]
    intro htrue
    have := (List.all_eq_true.mp htrue) (parser.inputs.get ⟨j, h⟩)
      (parser.inputs.get_mem _ _)
    exact hdup (by simpa using this)
  · intro htrue
    have := (List.all_eq_true.mp htrue) (parser.inputs.get ⟨j, h⟩)
      (parser.inputs.get_mem _ _)
    have hget : reversedOutputSide parser j = parser.inputs.get ⟨j, h⟩ := by
      unfold reversedOutputSide
      rw [List.getD_eq_getElem parser.inputs "" h]
      rfl
    rw [hget]
    simpa using this

/-- Witness for C4 on the concrete equation `ii->i` (target operand 0, the
pattern `ii` has the label `i` repeated): the applicability check returns
`false`. -/
theorem einsum_backward_can_be_applied_spec_witness :
    0 < ([("ii" : String)] : List String).length ∧
      ¬ (("ii" : String).toList.Nodup) ∧
      einsum_backward_can_be_applied ⟨["ii"], "i"⟩ = false := by
  refine ⟨by decide, by decide, ?_⟩
  exact (einsum_backward_can_be_applied_spec ⟨["ii"], "i"⟩ 0 (by decide)).1
    (by decide)

/-! ## Global average pooling backward (C8, C10) -/

/-- Embedding of `PureGlobalAveragePoolingBackward.backward_can_be_applied`
(onnx_ops.py, lines 786-788):
`len(utils.in_desc_with_name(node, state, sdfg, "X").shape) == 4`. -/
def gap_backward_can_be_applied (xShape : List ℕ) : Bool :=
  xShape.length == 4

/-- Embedding of the `bwd` program of
`PureGlobalAveragePoolingBackward.backward` (onnx_ops.py, lines 791-808):
`inv = 1.0 / (H * W)` and for every `(n, c, h, w)` in the dense map,
`x_grad = y_grad * dtype(inv)` reading `y_grad` from `Y_grad[n, c]`.
Entries are exact rationals; the cast `dtype(inv)` of the compile-time
constant to the forward element type is modelled as exact. -/
def gap_backward (N C H W : ℕ) (Y_grad : Fin N → Fin C → ℚ) :
    Fin N → Fin C → Fin H → Fin W → ℚ :=
  fun n c _h _w => Y_grad n c * (1 / ((H : ℚ) * (W : ℚ)))

/-- **C8.** The global-average-pool backward applicability check returns
`true` exactly when the forward operand has rank 4, and the synthesized
subgraph sets every produced input-gradient element at `(n, c, h, w)` to
the incoming output-gradient value at `(n, c)` multiplied by the constant
`1/(H·W)` — in particular divided by 16 when `H = W = 4`. -/
theorem gap_backward_spec (xShape : List ℕ) (N C H W : ℕ)
    (Y_grad : Fin N → Fin C → ℚ) (Y_grad' : Fin N → Fin C → ℚ) :
    (gap_backward_can_be_applied xShape = true ↔ xShape.length = 4) ∧
      (∀ (n : Fin N) (c : Fin C) (h : Fin H) (w : Fin W),
        gap_backward N C H W Y_grad n c h w =
          Y_grad n c * (1 / ((H : ℚ) * (W : ℚ)))) ∧
      (∀ (n : Fin N) (c : Fin C) (h w : Fin 4),
        gap_backward N C 4 4 Y_grad' n c h w = Y_grad' n c / 16) := by
  refine ⟨by simp [gap_backward_can_be_applied], fun n c h w => rfl, ?_⟩
  intro n c h w
  show Y_grad' n c * (1 / ((4 : ℚ) * 4)) = Y_grad' n c / 16
  ring

/-- Witness for C8: rank-4 shape `[2, 3, 4, 4]` is applicable, rank-3 is
not, and with `H = W = 4` a constant gradient of 32 yields 2 at every
spatial position. -/
theorem gap_backward_spec_witness :
    gap_backward_can_be_applied [2, 3, 4, 4] = true ∧
      gap_backward 2 3 4 4 (fun _ _ => 32) 0 0 0 0 = 2 := by
  constructor
  · exact (gap_backward_spec [2, 3, 4, 4] 2 3 4 4 (fun _ _ => 32)
      (fun _ _ => 32)).1.mpr rfl
  · rw [(gap_backward_spec [2, 3, 4, 4] 2 3 4 4 (fun _ _ => 32)
      (fun _ _ => 32)).2.2 0 0 0 0]
    norm_num

/-! ## Forward-graph effects of `CuDNNBatchNormBackward.backward` (C5)

`CuDNNBatchNormBackward.backward` is the one strategy that touches the
forward graph.  The operations it performs on the forward
graph/state/node, in source order (onnx_ops.py, lines 704-761), are
recorded below.  Everything else the function does (building `nsdfg`, its
state, descriptors, the tasklet, and the nested-SDFG node in the
*backward* state) does not touch the forward graph. -/

/-- An operation affecting the forward graph performed (or deferred)
during `CuDNNBatchNormBackward.backward`. -/
inductive BNFwdGraphOp
  /-- `context.backward_generator.completion_hooks.append(expand)`:
  registration of the deferred hook; `expand` re-expands the forward
  node's lowering with `reserved_ptr=True` when later executed. -/
  | registerCompletionHook
  /-- The mutation the registered `expand` hook performs when the driver
  drains the completion hooks: re-expansion of the forward node's
  lowering (`CudnnBatchNormalizationTraining.forward(..., reserved_ptr=True)`
  applied via `Expansion.apply_to(context.forward_sdfg, ...)`). -/
  | expandForwardLowering
  /-- `forward_node.add_out_connector(name)` on the forward node. -/
  | addOutConnector (name : String)
  /-- `context.forward_sdfg.add_scalar(base, ..., find_new_name=True)`:
  a new tensor declaration in the forward graph. -/
  | addScalarDecl (base : String)
  /-- `context.forward_state.add_edge(forward_node, connector, read, ...)`:
  a new edge (plus its read access node) in the forward state. -/
  | addEdge (connector : String)
deriving Repr, DecidableEq

/-- The sequence of forward-graph operations `CuDNNBatchNormBackward.backward`
performs *during* its own execution, in source order (lines 726-750):
the hook registration (line 726), then — immediately, still inside
`backward` — two new output connectors on the forward node (lines
729-730), two new scalar declarations in the forward SDFG (lines
731-741), and two new edges in the forward state (lines 743-750). -/
def cuDNNBatchNormBackward_fwdGraphTrace : List BNFwdGraphOp :=
  [BNFwdGraphOp.registerCompletionHook,
   BNFwdGraphOp.addOutConnector "reserved_ptr",
   BNFwdGraphOp.addOutConnector "reserved_size",
   BNFwdGraphOp.addScalarDecl "reserved_ptr",
   BNFwdGraphOp.addScalarDecl "reserved_size",
   BNFwdGraphOp.addEdge "reserved_ptr",
   BNFwdGraphOp.addEdge "reserved_size"]

/-- The forward-graph *mutations* performed immediately inside the
`backward` call (everything in the trace except the hook registration,
which defers its mutation). -/
def cuDNNBatchNormBackward_immediateMutations : List BNFwdGraphOp :=
  cuDNNBatchNormBackward_fwdGraphTrace.filter
    (fun op => op ≠ BNFwdGraphOp.registerCompletionHook)

/-- The forward-graph mutations deferred to completion hooks: the single
registered hook re-expands the forward node's lowering and does nothing
else. -/
def cuDNNBatchNormBackward_deferredMutations : List BNFwdGraphOp :=
  [BNFwdGraphOp.expandForwardLowering]

/-- **C5, counterexample.** The claim that every addition of output
connectors, tensor declarations, or edges to the forward graph happens
strictly after synthesis (via the deferred-hook mechanism) is false: the
`backward` call itself immediately adds the output connector
`reserved_ptr` (and five further mutations) to the forward graph. -/
theorem cuDNNBatchNormBackward_immediate_mutation_exists :
    BNFwdGraphOp.addOutConnector "reserved_ptr" ∈
        cuDNNBatchNormBackward_immediateMutations ∧
      cuDNNBatchNormBackward_immediateMutations ≠ [] := by
  decide

/-- **C5, amended.** Only the re-expansion of the forward node's lowering
is deferred through the completion-hook mechanism (exactly one hook is
registered); the two new output connectors, the two scalar tensor
declarations, and the two edges are added to the forward graph
immediately inside the `synthesize` (`backward`) call itself. -/
theorem cuDNNBatchNormBackward_mutation_phases :
    cuDNNBatchNormBackward_immediateMutations =
        [BNFwdGraphOp.addOutConnector "reserved_ptr",
         BNFwdGraphOp.addOutConnector "reserved_size",
         BNFwdGraphOp.addScalarDecl "reserved_ptr",
         BNFwdGraphOp.addScalarDecl "reserved_size",
         BNFwdGraphOp.addEdge "reserved_ptr",
         BNFwdGraphOp.addEdge "reserved_size"] ∧
      cuDNNBatchNormBackward_deferredMutations =
        [BNFwdGraphOp.expandForwardLowering] ∧
      (cuDNNBatchNormBackward_fwdGraphTrace.count
        BNFwdGraphOp.registerCompletionHook) = 1 := by
  refine ⟨by decide, rfl, by decide⟩

/-! ## Native resource lifecycle of the accelerated strategies (C9)

Handles are identified by their name with the per-node `unique_id`
namespace stripped (every handle of one node carries the same
`{unique_id}_` head, so pairing is unaffected).  The `created` list
records, in order of `init_code +=` emissions, each native handle the
initialization block creates; the `released` list records, in order of
`finalize_code +=` emissions, each handle the finalization block
releases. -/

/-- Modelled from the spec:
`cudnn_implementations._cudnn_tensor_descriptor_code(desc, name, is_filter, shape)`
(module `daceml.onnx.op_implementations.cudnn_implementations`, not part
of the source tree under verification) — per §4.6 step (4)/(6) it returns
an init snippet that creates one native descriptor object with the given
name and an exit snippet that releases exactly that descriptor. -/
def cudnn_tensor_descriptor_code (name : String) : String × String :=
  (name, name)

/-- Handles created by the init block of `CuDNNConvBackward.backward`
(onnx_ops.py, lines 284-383), in emission order: one gradient descriptor
`d{r}_desc` per element of `required_grads = set(required_gradients)`
(lines 288-304), the forward descriptors `W_desc` and `X_desc` (lines
306-312, `required_forward_inputs = ["W", "X"]`), `dY_desc` (lines
314-318), `conv_desc` (lines 335-348), and the workspace-size cell and
workspace buffer (lines 380-382: `new size_t`, then `cudaMalloc`). -/
def cuDNNConvBackward_created (required_grads : List String) : List String :=
  required_grads.map
      (fun r => (cudnn_tensor_descriptor_code ("d" ++ r ++ "_desc")).1)
    ++ ["W", "X"].map (fun r => (cudnn_tensor_descriptor_code (r ++ "_desc")).1)
    ++ ["dY_desc", "conv_desc"]
    ++ ["workspace_size", "workspace"]

/-- Handles released by the finalization block of
`CuDNNConvBackward.backward`, in emission order: the same descriptors in
the same order (every `init_code +=` of a descriptor is immediately
followed by the matching `finalize_code +=`), then `workspace`
(`cudaFree`, line 385) and `workspace_size` (`delete`, line 386). -/
def cuDNNConvBackward_released (required_grads : List String) : List String :=
  required_grads.map
      (fun r => (cudnn_tensor_descriptor_code ("d" ++ r ++ "_desc")).2)
    ++ ["W", "X"].map (fun r => (cudnn_tensor_descriptor_code (r ++ "_desc")).2)
    ++ ["dY_desc", "conv_desc"]
    ++ ["workspace", "workspace_size"]

/-- The state fields declared on the `CuDNNConvBackward` tasklet
(onnx_ops.py, lines 447-457), by handle name.  (In the source, the
`dW_desc` and `conv_desc` entries are fused into one string by implicit
Python string concatenation, but both declarations appear in the emitted
code.) -/
def cuDNNConvBackward_stateFields : List String :=
  ["X_desc", "W_desc", "dX_desc", "dY_desc", "dB_desc", "dW_desc",
   "conv_desc", "workspace", "workspace_size"]

/-- Handles created by the init block of `CuDNNBatchNormBackward.backward`
(onnx_ops.py, lines 549-601), in emission order: `X_desc`, `dX_desc`,
`dY_desc` (lines 549-564), `dScale_desc` (lines 567-574), and the
workspace-size cell and workspace buffer (lines 598-600). -/
def cuDNNBatchNormBackward_created : List String :=
  [(cudnn_tensor_descriptor_code "X_desc").1,
   (cudnn_tensor_descriptor_code "dX_desc").1,
   (cudnn_tensor_descriptor_code "dY_desc").1,
   "dScale_desc", "workspace_size", "workspace"]

/-- Handles released by the finalization block of
`CuDNNBatchNormBackward.backward`, in emission order (each descriptor's
release is appended with its creation; lines 602-604 release
`workspace_size` then `workspace`). -/
def cuDNNBatchNormBackward_released : List String :=
  [(cudnn_tensor_descriptor_code "X_desc").2,
   (cudnn_tensor_descriptor_code "dX_desc").2,
   (cudnn_tensor_descriptor_code "dY_desc").2,
   "dScale_desc", "workspace_size", "workspace"]

/-- The state fields declared on the `CuDNNBatchNormBackward` tasklet
(onnx_ops.py, lines 668-679), by handle name. -/
def cuDNNBatchNormBackward_stateFields : List String :=
  ["X_desc", "W_desc", "dX_desc", "dY_desc", "dB_desc", "dW_desc",
   "dScale_desc", "conv_desc", "workspace", "workspace_size"]

/-- **C9.** For both accelerated strategies, the multiset of handles
created in the initialization block equals the multiset released in the
finalization block, each handle appearing exactly once on each side (no
leaks, no double-frees), and every created handle is among the tasklet's
declared state fields.  For the convolution strategy this holds for every
set of required gradients drawn from the connectors `X`, `W`, `B`. -/
theorem cudnn_resource_pairing (required_grads : List String)
    (hnd : required_grads.Nodup)
    (hsub : required_grads ⊆ ["X", "W", "B"]) :
    (cuDNNConvBackward_created required_grads).Perm
        (cuDNNConvBackward_released required_grads) ∧
      (cuDNNConvBackward_created required_grads).Nodup ∧
      (cuDNNConvBackward_released required_grads).Nodup ∧
      cuDNNConvBackward_created required_grads ⊆
        cuDNNConvBackward_stateFields ∧
      cuDNNBatchNormBackward_created = cuDNNBatchNormBackward_released ∧
      cuDNNBatchNormBackward_created.Nodup ∧
      cuDNNBatchNormBackward_created ⊆
        cuDNNBatchNormBackward_stateFields := by
  have hmem3 : ∀ x ∈ required_grads, x = "X" ∨ x = "W" ∨ x = "B" := by
    intro x hx
    have := hsub hx
    simpa using this
  have hmapinj : ∀ x ∈ required_grads, ∀ y ∈ required_grads,
      "d" ++ x ++ "_desc" = "d" ++ y ++ "_desc" → x = y := by
    intro x hx y hy hxy
    rcases hmem3 x hx with rfl | rfl | rfl <;>
      rcases hmem3 y hy with rfl | rfl | rfl <;>
      first
        | rfl
        | exact absurd hxy (by decide)
  have hmapnd : (required_grads.map
      (fun r => "d" ++ r ++ "_desc")).Nodup := hnd.map_on hmapinj
  have htailnd : (["W", "X"].map (fun r => r ++ "_desc")
      ++ ["dY_desc", "conv_desc"] ++ ["workspace_size", "workspace"]).Nodup :=
    by decide
  have htailnd' : (["W", "X"].map (fun r => r ++ "_desc")
      ++ ["dY_desc", "conv_desc"] ++ ["workspace", "workspace_size"]).Nodup :=
    by decide
  have hdisj : ∀ tail : List String,
      tail = ["W_desc", "X_desc", "dY_desc", "conv_desc", "workspace_size",
        "workspace"] ∨
      tail = ["W_desc", "X_desc", "dY_desc", "conv_desc", "workspace",
        "workspace_size"] →
      (required_grads.map (fun r => "d" ++ r ++ "_desc")).Disjoint tail := by
    intro tail htail a ha hatail
    rcases List.mem_map.mp ha with ⟨r, hr, rfl⟩
    rcases hmem3 r hr with rfl | rfl | rfl <;>
      rcases htail with rfl | rfl <;>
      exact absurd hatail (by decide)
  constructor
  · -- created ~ released: same prefix, last two elements swapped
    unfold cuDNNConvBackward_created cuDNNConvBackward_released
      cudnn_tensor_descriptor_code
    rw [List.append_assoc, List.append_assoc, List.append_assoc,
      List.append_assoc]
    refine List.Perm.append_left _ ?_
    refine List.Perm.append_left _ ?_
    refine List.Perm.append_left _ ?_
    exact List.Perm.swap "workspace" "workspace_size" []
  refine ⟨?_, ?_, ?_, by decide, by decide, by decide⟩
  · unfold cuDNNConvBackward_created cudnn_tensor_descriptor_code
    rw [List.append_assoc, List.append_assoc]
    refine List.Nodup.append hmapnd (by decide) ?_
    intro a ha hatail
    refine hdisj _ (Or.inl rfl) ha ?_
    simpa using hatail
  · unfold cuDNNConvBackward_released cudnn_tensor_descriptor_code
    rw [List.append_assoc, List.append_assoc]
    refine List.Nodup.append hmapnd (by decide) ?_
    intro a ha hatail
    refine hdisj _ (Or.inr rfl) ha ?_
    simpa using hatail
  · intro h hh
    unfold cuDNNConvBackward_created cudnn_tensor_descriptor_code at hh
    simp only [List.mem_append, List.mem_map] at hh
    rcases hh with ((⟨r, hr, rfl⟩ | ⟨r, hr, rfl⟩) | hh) | hh
    · rcases hmem3 r hr with rfl | rfl | rfl <;> decide
    · have hr' : r = "W" ∨ r = "X" := by simpa using hr
      rcases hr' with rfl | rfl <;> decide
    · have hh' : h = "dY_desc" ∨ h = "conv_desc" := by simpa using hh
      rcases hh' with rfl | rfl <;> decide
    · have hh' : h = "workspace_size" ∨ h = "workspace" := by simpa using hh
      rcases hh' with rfl | rfl <;> decide

/-- Witness for C9 with all three convolution gradients required. -/
theorem cudnn_resource_pairing_witness :
    (cuDNNConvBackward_created ["X", "W", "B"]).Perm
        (cuDNNConvBackward_released ["X", "W", "B"]) ∧
      (cuDNNConvBackward_created ["X", "W", "B"]).Nodup ∧
      (cuDNNConvBackward_released ["X", "W", "B"]).Nodup ∧
      cuDNNConvBackward_created ["X", "W", "B"] ⊆
        cuDNNConvBackward_stateFields ∧
      cuDNNBatchNormBackward_created = cuDNNBatchNormBackward_released ∧
      cuDNNBatchNormBackward_created.Nodup ∧
      cuDNNBatchNormBackward_created ⊆
        cuDNNBatchNormBackward_stateFields :=
  cudnn_resource_pairing ["X", "W", "B"] (by decide) (by decide)

/-! ## Nested-unit interface of program-lowered strategies (C10) -/

/-- The connector wiring `butils.backward_program_for_node` derives from a
backward program's parameter names. -/
structure BackwardProgramInterface where
  /-- Parameters naming forward input connectors (read as auxiliary
  forward tensors). -/
  forwardInputsUsed : List String
  /-- Parameters naming forward output connectors (read as auxiliary
  forward tensors, wired up by `connect_output_from_forward`). -/
  forwardOutputsUsed : List String
  /-- Parameters `c_grad` for an output connector `c`: the incoming
  gradients the unit consumes. -/
  givenGradParams : List String
  /-- Parameters `c_grad` for an input connector `c`: the gradients the
  unit produces. -/
  requiredGradParams : List String
deriving Repr, DecidableEq

/-- Modelled from the spec: `butils.backward_program_for_node(program,
context, forward_node)` (module `daceml.autodiff.utils`, not part of the
source tree under verification) — per §2 it "turns a small sequence of
elementwise/reduction operator invocations (a 'backward formula') into a
nested dataflow subgraph with correctly wired read/write access nodes",
classifying the program's parameters by name against the forward node's
connectors: a parameter named exactly like a forward connector is a read
of that forward tensor, a parameter `c_grad` for an output connector `c`
consumes that output's incoming gradient, and a parameter `c_grad` for an
input connector `c` produces that input's gradient. -/
def backward_program_for_node (fwdIn fwdOut params : List String) :
    BackwardProgramInterface where
  forwardInputsUsed := params.filter (fun p => fwdIn.any (fun c => p == c))
  forwardOutputsUsed := params.filter (fun p => fwdOut.any (fun c => p == c))
  givenGradParams :=
    params.filter (fun p => fwdOut.any (fun c => p == c ++ "_grad"))
  requiredGradParams :=
    params.filter (fun p => fwdIn.any (fun c => p == c ++ "_grad"))

/-- The parameter list of the `bwd` closure in
`PureGlobalAveragePoolingBackward.backward` (line 802):
`def bwd(X_grad, Y_grad)`.  The forward `GlobalAveragePool` node has the
input connector `X` and the output connector `Y`. -/
def gap_backward_params : List String := ["X_grad", "Y_grad"]

/-- The interface `backward_program_for_node` derives for the
global-average-pool backward program. -/
def gap_interface : BackwardProgramInterface :=
  backward_program_for_node ["X"] ["Y"] gap_backward_params

/-- The declared inputs of the nested unit produced for the
global-average-pool backward: the consumed gradients, the referenced
forward tensors, and the forward outputs additionally wired in by
`connect_output_from_forward` calls (of which this strategy makes none). -/
def gap_nested_unit_inputs : List String :=
  gap_interface.givenGradParams ++ gap_interface.forwardInputsUsed
    ++ gap_interface.forwardOutputsUsed ++ gapConnectedForwardOutputs

/-- The declared outputs of the nested unit produced for the
global-average-pool backward. -/
def gap_nested_unit_outputs : List String :=
  gap_interface.requiredGradParams

/-- **C10.** The global-average-pool backward subgraph consumes only the
incoming output gradient: it references no forward tensor (neither the
forward input `X` nor the forward output `Y`) and makes no
`connect_output_from_forward` call — unlike the Softmax and LogSoftmax
strategies, which each connect the forward output — so its nested unit
has exactly one input (`Y`'s gradient) and one output (`X`'s gradient). -/
theorem gap_nested_unit_spec :
    gap_interface.forwardInputsUsed = [] ∧
      gap_interface.forwardOutputsUsed = [] ∧
      gapConnectedForwardOutputs = [] ∧
      gap_nested_unit_inputs = ["Y_grad"] ∧
      gap_nested_unit_outputs = ["X_grad"] ∧
      softmaxConnectedForwardOutputs ≠ [] ∧
      logSoftmaxConnectedForwardOutputs ≠ [] := by
  decide

/-! ## The einsum backward graph construction (C6, C7)

`DefaultEinsumBackward.backward` (onnx_ops.py, lines 59-133) builds one
nested SDFG with a single state (`nstate = nsdfg.add_state()`), reading
the incoming output gradient once, adding one reversed einsum node per
required gradient, deduplicating reads of forward input tensors through
the `required_forward_inputs` dict, and allocating one gradient array per
required connector.  The model records the access nodes added by
`add_read`, the insertion-ordered keys of `required_forward_inputs`, the
einsum nodes, and the `required_grad_names` mapping. -/

/-- Modelled from the spec: `butils.add_backward_desc` /
`butils.add_backward_desc_for_connector` (module `daceml.autodiff.utils`,
not part of the source tree under verification) — they allocate, inside
the backward subgraph, a descriptor holding the gradient of the named
tensor; per §3 the resulting gradient tensor names are "newly allocated by
the core inside the subgraph it builds" and unique within it.  Modelled
as the derived name `<base>_gradient`; uniqueness within the concrete
subgraphs built here is proved in the theorems below. -/
def add_backward_desc_name (base : String) : String := base ++ "_gradient"

/-- Modelled from the spec: `donnx.parse_variadic_param` (module
`daceml.onnx`, not part of the source tree under verification) — recovers,
from a variadic connector name such as `Inputs__3`, "the index of the
operand to differentiate with respect to" (§4.2): the part before the
final `__` and the numeric part after it. -/
def parse_variadic_param (s : String) : String × ℕ :=
  let parts := s.splitOn "__"
  if parts.length ≤ 1 then (s, 0)
  else (String.intercalate "__" parts.dropLast,
    ((parts.getLast?).getD "").toNat?.getD 0)

/-- The graph state accumulated while `DefaultEinsumBackward.backward`
builds its nested SDFG: the array names whose read access nodes were
added by `nstate.add_read` (in creation order), the insertion-ordered
keys of the `required_forward_inputs` dict, the added einsum nodes as
(label, equation) pairs, and the `result.required_grad_names` entries as
(connector, gradient array) pairs. -/
structure EinsumBwdState where
  reads : List String
  seenForward : List String
  einsumNodes : List (String × String)
  requiredGradNames : List (String × String)
deriving Repr, DecidableEq

/-- The body of the inner loop over `forward_inputs` (lines 104-113): if
the forward connector is not yet a key of `required_forward_inputs`, a new
data descriptor and read access node are created for it
(`create_access_node`, lines 77-82) and it is recorded; otherwise the
existing access node is reused.  (The edge into the einsum node is added
either way.) -/
def require_forward_input (t : EinsumBwdState) (fc : String) :
    EinsumBwdState :=
  if fc ∈ t.seenForward then t
  else { t with
    seenForward := t.seenForward ++ [fc],
    reads := t.reads ++ [fc] }

/-- One iteration of the loop `for input_name in required_gradients`
(lines 88-125): reverse the einsum w.r.t. the parsed operand index, add
the reversed einsum node (wired to the shared output-gradient read), pull
in the needed forward inputs (deduplicated), and allocate the gradient
output array recorded in `required_grad_names`. -/
def einsum_backward_step (parser : EinsumParser) (s : EinsumBwdState)
    (input_name : String) : EinsumBwdState :=
  let input_idx := (parse_variadic_param input_name).2
  let forward_inputs := (reverse_einsum_wrt_input parser input_idx).1
  let einsum_str := (reverse_einsum_wrt_input parser input_idx).2
  let s1 : EinsumBwdState :=
    { s with einsumNodes :=
        s.einsumNodes ++ [(input_name ++ "_backward", einsum_str)] }
  let s2 := forward_inputs.foldl require_forward_input s1
  { s2 with requiredGradNames :=
      s2.requiredGradNames
        ++ [(input_name, add_backward_desc_name input_name)] }

/-- The `given_grad_names` mapping set up before the loop (lines 72-74):
the single entry for `Output`. -/
def einsum_given_grad_names : List (String × String) :=
  [("Output", add_backward_desc_name "Output")]

/-- The state before the loop: the output-gradient array has been added
and read once (`access_output_grad`, line 75); nothing else exists yet. -/
def einsum_backward_init : EinsumBwdState where
  reads := [add_backward_desc_name "Output"]
  seenForward := []
  einsumNodes := []
  requiredGradNames := []

/-- The full graph construction of `DefaultEinsumBackward.backward`:
the loop over `required_gradients` starting from the initial state. -/
def einsum_backward_build (parser : EinsumParser)
    (required_gradients : List String) : EinsumBwdState :=
  required_gradients.foldl (einsum_backward_step parser)
    einsum_backward_init

/-- The declared input set of the embedded nested unit (lines 127-131):
`set(result.given_grad_names.values()).union(required_forward_inputs)`. -/
def einsum_nested_inputs (parser : EinsumParser)
    (required_gradients : List String) : List String :=
  einsum_given_grad_names.map Prod.snd
    ++ (einsum_backward_build parser required_gradients).seenForward

/-- The declared output set of the embedded nested unit (line 131):
`set(result.required_grad_names.values())`. -/
def einsum_nested_outputs (parser : EinsumParser)
    (required_gradients : List String) : List String :=
  (einsum_backward_build parser required_gradients).requiredGradNames.map
    Prod.snd

lemma require_forward_input_foldl_einsumNodes (fcs : List String)
    (t : EinsumBwdState) :
    (fcs.foldl require_forward_input t).einsumNodes = t.einsumNodes := by
  induction fcs generalizing t with
  | nil => rfl
  | cons fc fcs ih =>
    rw [List.foldl_cons, ih]
    unfold require_forward_input
    split <;> rfl

lemma require_forward_input_foldl_requiredGradNames (fcs : List String)
    (t : EinsumBwdState) :
    (fcs.foldl require_forward_input t).requiredGradNames =
      t.requiredGradNames := by
  induction fcs generalizing t with
  | nil => rfl
  | cons fc fcs ih =>
    rw [List.foldl_cons, ih]
    unfold require_forward_input
    split <;> rfl

lemma require_forward_input_foldl_nodup (fcs : List String)
    (t : EinsumBwdState) (h : t.seenForward.Nodup) :
    (fcs.foldl require_forward_input t).seenForward.Nodup := by
  induction fcs generalizing t with
  | nil => exact h
  | cons fc fcs ih =>
    rw [List.foldl_cons]
    apply ih
    unfold require_forward_input
    split
    · exact h
    · rename_i hnotmem
      exact (List.perm_append_singleton fc t.seenForward).nodup_iff.mpr
        (List.Nodup.cons hnotmem h)

lemma require_forward_input_foldl_mem (fcs : List String)
    (t : EinsumBwdState) (x : String) :
    x ∈ (fcs.foldl require_forward_input t).seenForward ↔
      x ∈ t.seenForward ∨ x ∈ fcs := by
  induction fcs generalizing t with
  | nil => simp
  | cons fc fcs ih =>
    rw [List.foldl_cons, ih]
    unfold require_forward_input
    split
    · rename_i hmem
      constructor
      · rintro (hx | hx)
        · exact Or.inl hx
        · exact Or.inr (List.mem_cons_of_mem fc hx)
      · rintro (hx | hx)
        · exact Or.inl hx
        · rcases List.mem_cons.mp hx with rfl | hx
          · exact Or.inl hmem
          · exact Or.inr hx
    · constructor
      · rintro (hx | hx)
        · rcases List.mem_append.mp hx with hx | hx
          · exact Or.inl hx
          · rcases List.mem_singleton.mp hx with rfl
            exact Or.inr (List.mem_cons_self x fcs)
        · exact Or.inr (List.mem_cons_of_mem fc hx)
      · rintro (hx | hx)
        · exact Or.inl (List.mem_append_left _ hx)
        · rcases List.mem_cons.mp hx with rfl | hx
          · exact Or.inl (List.mem_append_right _ (List.mem_singleton_self x))
          · exact Or.inr hx

lemma require_forward_input_foldl_reads (fcs : List String)
    (t : EinsumBwdState) (pre : List String)
    (h : t.reads = pre ++ t.seenForward) :
    (fcs.foldl require_forward_input t).reads =
      pre ++ (fcs.foldl require_forward_input t).seenForward := by
  induction fcs generalizing t with
  | nil => exact h
  | cons fc fcs ih =>
    rw [List.foldl_cons]
    apply ih
    unfold require_forward_input
    split
    · exact h
    · show t.reads ++ [fc] = pre ++ (t.seenForward ++ [fc])
      rw [h, List.append_assoc]

lemma einsum_backward_foldl_einsumNodes (parser : EinsumParser)
    (req : List String) (s : EinsumBwdState) :
    (req.foldl (einsum_backward_step parser) s).einsumNodes =
      s.einsumNodes ++ req.map (fun n => (n ++ "_backward",
        (reverse_einsum_wrt_input parser (parse_variadic_param n).2).2)) := by
  induction req generalizing s with
  | nil => simp
  | cons n req ih =>
    rw [List.foldl_cons, ih]
    have hstep : (einsum_backward_step parser s n).einsumNodes =
        s.einsumNodes ++ [(n ++ "_backward",
          (reverse_einsum_wrt_input parser (parse_variadic_param n).2).2)] := by
      show ((reverse_einsum_wrt_input parser
          (parse_variadic_param n).2).1.foldl require_forward_input
          { s with einsumNodes := s.einsumNodes ++
            [(n ++ "_backward", (reverse_einsum_wrt_input parser
              (parse_variadic_param n).2).2)] }).einsumNodes = _
      rw [require_forward_input_foldl_einsumNodes]
    rw [hstep, List.append_assoc]
    rfl

lemma einsum_backward_foldl_requiredGradNames (parser : EinsumParser)
    (req : List String) (s : EinsumBwdState) :
    (req.foldl (einsum_backward_step parser) s).requiredGradNames =
      s.requiredGradNames
        ++ req.map (fun n => (n, add_backward_desc_name n)) := by
  induction req generalizing s with
  | nil => simp
  | cons n req ih =>
    rw [List.foldl_cons, ih]
    show _ = s.requiredGradNames ++ ((n, add_backward_desc_name n) :: _)
    have := require_forward_input_foldl_requiredGradNames
      (reverse_einsum_wrt_input parser (parse_variadic_param n).2).1
      { s with einsumNodes := s.einsumNodes ++
          [(n ++ "_backward",
            (reverse_einsum_wrt_input parser (parse_variadic_param n).2).2)] }
    simp only [einsum_backward_step]
    rw [this]
    simp

lemma einsum_backward_foldl_nodup (parser : EinsumParser)
    (req : List String) (s : EinsumBwdState)
    (h : s.seenForward.Nodup) :
    (req.foldl (einsum_backward_step parser) s).seenForward.Nodup := by
  induction req generalizing s with
  | nil => exact h
  | cons n req ih =>
    rw [List.foldl_cons]
    apply ih
    simp only [einsum_backward_step]
    exact require_forward_input_foldl_nodup _ _ h

lemma einsum_backward_foldl_mem (parser : EinsumParser)
    (req : List String) (s : EinsumBwdState) (x : String) :
    x ∈ (req.foldl (einsum_backward_step parser) s).seenForward ↔
      x ∈ s.seenForward ∨ ∃ n ∈ req,
        x ∈ (reverse_einsum_wrt_input parser
          (parse_variadic_param n).2).1 := by
  induction req generalizing s with
  | nil => simp
  | cons n req ih =>
    rw [List.foldl_cons, ih]
    simp only [einsum_backward_step]
    rw [require_forward_input_foldl_mem]
    constructor
    · rintro ((hx | hx) | ⟨m, hm, hx⟩)
      · exact Or.inl hx
      · exact Or.inr ⟨n, List.mem_cons_self n req, hx⟩
      · exact Or.inr ⟨m, List.mem_cons_of_mem n hm, hx⟩
    · rintro (hx | ⟨m, hm, hx⟩)
      · exact Or.inl (Or.inl hx)
      · rcases List.mem_cons.mp hm with rfl | hm
        · exact Or.inl (Or.inr hx)
        · exact Or.inr ⟨m, hm, hx⟩

lemma einsum_backward_foldl_reads (parser : EinsumParser)
    (req : List String) (s : EinsumBwdState) (pre : List String)
    (h : s.reads = pre ++ s.seenForward) :
    (req.foldl (einsum_backward_step parser) s).reads =
      pre ++ (req.foldl (einsum_backward_step parser) s).seenForward := by
  induction req generalizing s with
  | nil => exact h
  | cons n req ih =>
    rw [List.foldl_cons]
    apply ih
    simp only [einsum_backward_step]
    exact require_forward_input_foldl_reads _ _ pre h

lemma inputConnector_append_ne_output_gradient (x : String) :
    "Inputs__" ++ x ≠ "Output_gradient" := by
  intro h
  have h' := congrArg String.data h
  rw [String.data_append] at h'
  have h2 := congrArg List.head? h'
  simp only [List.head?] at h2
  exact absurd (Option.some.inj h2) (by decide)

lemma seenForward_ne_output_gradient (parser : EinsumParser)
    (required_gradients : List String) (fc : String)
    (hfc : fc ∈ (einsum_backward_build parser
      required_gradients).seenForward) :
    fc ≠ add_backward_desc_name "Output" := by
  unfold einsum_backward_build at hfc
  rcases (einsum_backward_foldl_mem parser required_gradients
      einsum_backward_init fc).mp hfc with hx | ⟨n, _, hx⟩
  · simp [einsum_backward_init] at hx
  · unfold reverse_einsum_wrt_input at hx
    rcases List.mem_map.mp hx with ⟨i, _, rfl⟩
    exact inputConnector_append_ne_output_gradient (toString i)

/-- **C7.** The einsum backward strategy builds, inside its single shared
state, exactly one reversed-contraction node per required input (labelled
`<connector>_backward`, carrying the reversed equation); it creates
exactly one read access node for the incoming output gradient and at most
one per distinct forward input tensor (its read list is exactly the
output-gradient read followed by the duplicate-free list of referenced
forward connectors); a forward connector is read iff some required
input's reversed expression references it; and the nested unit's declared
inputs are exactly the output-gradient tensor together with the distinct
forward tensors referenced, its declared outputs exactly the produced
input-gradient tensors. -/
theorem einsum_backward_structure (parser : EinsumParser)
    (required_gradients : List String) :
    (einsum_backward_build parser required_gradients).einsumNodes =
        required_gradients.map (fun n => (n ++ "_backward",
          (reverse_einsum_wrt_input parser
            (parse_variadic_param n).2).2)) ∧
      (einsum_backward_build parser required_gradients).seenForward.Nodup ∧
      (einsum_backward_build parser required_gradients).reads =
        add_backward_desc_name "Output" ::
          (einsum_backward_build parser required_gradients).seenForward ∧
      (einsum_backward_build parser required_gradients).reads.count
        (add_backward_desc_name "Output") = 1 ∧
      (∀ fc, fc ∈ (einsum_backward_build parser
          required_gradients).seenForward ↔
        ∃ n ∈ required_gradients,
          fc ∈ (reverse_einsum_wrt_input parser
            (parse_variadic_param n).2).1) ∧
      einsum_nested_inputs parser required_gradients =
        add_backward_desc_name "Output" ::
          (einsum_backward_build parser required_gradients).seenForward ∧
      einsum_nested_outputs parser required_gradients =
        required_gradients.map
          (fun n => add_backward_desc_name n) := by
  have hreads : (einsum_backward_build parser required_gradients).reads =
      [add_backward_desc_name "Output"] ++
        (einsum_backward_build parser required_gradients).seenForward := by
    unfold einsum_backward_build
    exact einsum_backward_foldl_reads parser required_gradients
      einsum_backward_init [add_backward_desc_name "Output"] rfl
  refine ⟨?_, ?_, ?_, ?_, ?_, ?_, ?_⟩
  · unfold einsum_backward_build
    rw [einsum_backward_foldl_einsumNodes]
    rfl
  · unfold einsum_backward_build
    exact einsum_backward_foldl_nodup parser required_gradients
      einsum_backward_init (by simp [einsum_backward_init])
  · simpa using hreads
  · rw [hreads]
    rw [List.count_append]
    rw [List.count_singleton]
    have : (einsum_backward_build parser
        required_gradients).seenForward.count
        (add_backward_desc_name "Output") = 0 := by
      apply List.count_eq_zero.mpr
      intro hmem
      exact seenForward_ne_output_gradient parser required_gradients _
        hmem rfl
    simp [this]
  · intro fc
    unfold einsum_backward_build
    rw [einsum_backward_foldl_mem]
    simp [einsum_backward_init]
  · rfl
  · unfold einsum_nested_outputs einsum_backward_build
    rw [einsum_backward_foldl_requiredGradNames]
    simp [einsum_backward_init]

/-- `CuDNNBatchNormBackward.backward` fills `result.required_grad_names`
unconditionally for the connectors `X`, `scale`, and `B` (onnx_ops.py,
lines 505-520), never consulting its `required_gradients` argument. -/
def cuDNNBatchNormBackward_requiredGradKeys
    (required_gradients : List String) : List String :=
  ["X", "scale", "B"]

/-- **C6, counterexample.** Calling the cuDNN batch-normalization
backward strategy with `required_gradients = ["X"]` produces a
`required_grad_names` entry for `scale`, a connector the caller did not
request — refuting the claim that every key corresponds to a requested
connector for every strategy. -/
theorem cuDNNBatchNormBackward_unrequested_grad :
    "scale" ∈ cuDNNBatchNormBackward_requiredGradKeys ["X"] ∧
      "scale" ∉ (["X"] : List String) := by
  decide

lemma append_gradient_right_cancel (a b : String)
    (h : a ++ "_gradient" = b ++ "_gradient") : a = b := by
  apply String.ext
  have h' : a.data ++ ("_gradient" : String).data =
      b.data ++ ("_gradient" : String).data := by
    rw [← String.data_append, ← String.data_append, h]
  exact List.append_cancel_right h'

/-- **C6, amended.** For the einsum strategy, the keys of
`required_grad_names` are exactly the caller's `required_gradients` (in
order), so no gradient output is produced for an unrequested connector,
and — when the requested connectors are distinct and none is the output
connector `Output` — the values, together with the given-gradient tensor
name, are pairwise distinct names within the built subgraph.  The cuDNN
batch-normalization strategy instead ignores `required_gradients` and
always produces gradient entries for exactly `X`, `scale`, and `B`. -/
theorem backward_result_grad_names (parser : EinsumParser)
    (required_gradients : List String)
    (hnd : required_gradients.Nodup)
    (hout : "Output" ∉ required_gradients) :
    (einsum_backward_build parser
        required_gradients).requiredGradNames.map Prod.fst =
      required_gradients ∧
      ((einsum_backward_build parser
          required_gradients).requiredGradNames.map Prod.snd ++
        einsum_given_grad_names.map Prod.snd).Nodup ∧
      cuDNNBatchNormBackward_requiredGradKeys required_gradients =
        ["X", "scale", "B"] := by
  have hvals : (einsum_backward_build parser
      required_gradients).requiredGradNames.map Prod.snd =
      required_gradients.map (fun n => add_backward_desc_name n) := by
    unfold einsum_backward_build
    rw [einsum_backward_foldl_requiredGradNames]
    simp [einsum_backward_init]
  refine ⟨?_, ?_, rfl⟩
  · unfold einsum_backward_build
    rw [einsum_backward_foldl_requiredGradNames]
    simp only [einsum_backward_init, List.nil_append, List.map_map]
    have hcomp : (Prod.fst ∘ fun n : String =>
        (n, add_backward_desc_name n)) = id := rfl
    rw [hcomp, List.map_id]
  · rw [hvals]
    show (required_gradients.map (fun n => add_backward_desc_name n) ++
      [add_backward_desc_name "Output"]).Nodup
    have hmapnd : (required_gradients.map
        (fun n => add_backward_desc_name n)).Nodup := by
      refine hnd.map_on ?_
      intro x _ y _ hxy
      exact append_gradient_right_cancel x y hxy
    have hnotin : add_backward_desc_name "Output" ∉
        required_gradients.map (fun n => add_backward_desc_name n) := by
      intro hmem
      rcases List.mem_map.mp hmem with ⟨n, hn, heq⟩
      have hn' : n = "Output" := append_gradient_right_cancel n "Output" heq
      exact hout (hn' ▸ hn)
    exact (List.perm_append_singleton _ _).nodup_iff.mpr
      (List.Nodup.cons hnotin hmapnd)

/-- Witness for the amended C6 on the equation `ij,jk->ik` with both
input gradients requested. -/
theorem backward_result_grad_names_witness :
    (einsum_backward_build ⟨["ij", "jk"], "ik"⟩
        ["Inputs__0", "Inputs__1"]).requiredGradNames.map Prod.fst =
      ["Inputs__0", "Inputs__1"] ∧
      ((einsum_backward_build ⟨["ij", "jk"], "ik"⟩
          ["Inputs__0", "Inputs__1"]).requiredGradNames.map Prod.snd ++
        einsum_given_grad_names.map Prod.snd).Nodup ∧
      cuDNNBatchNormBackward_requiredGradKeys ["Inputs__0", "Inputs__1"] =
        ["X", "scale", "B"] :=
  backward_result_grad_names ⟨["ij", "jk"], "ik"⟩
    ["Inputs__0", "Inputs__1"] (by decide) (by decide)

end OnnxOps
